/-
Verification of the structured-output extraction and materialization pipeline
of the refactor-agent repository.

The Python sources embedded here are:
  * refactor_cli.py          (`refactor_file`, its JSON-block extraction, backup,
                              apply and utility-module writing logic)
  * agent/runner.py          (`run_refactor_agent`, its extraction, logging,
                              apply and interactive-confirmation logic)
  * agent/tools.py           (`extract_top_level_functions`)
  * test_directory_structure.py (timestamped-tree variant's log filename)

Strings are modelled as `List Char` and the Python `str` operations used by the
code (`find`, `rfind`, slicing, `replace`, `strip`, `lower`) are embedded with
Python's semantics (`replace` replaces all non-overlapping occurrences left to
right; `strip` removes ASCII whitespace, the only kind appearing here).
Filesystem behaviour is modelled as the ordered list of write events a run
performs; `json.dumps`/`json.loads` of the Python standard library (external to
the repository) are modelled for the record shapes the pipeline exchanges.
-/
import Mathlib

namespace RefactorAgent

/-- Strings, modelled as lists of characters. -/
abbrev Str := List Char

/-! ## Python string primitives -/

/-- Helper for Python `str.find`: index of the first occurrence of `needle`,
as an `Option`. -/
def pyFindAux (needle : Str) : Str → Option Nat
  | [] => if needle = [] then some 0 else none
  | c :: rest =>
    if needle.isPrefixOf (c :: rest) then some 0
    else (pyFindAux needle rest).map (· + 1)

/-- Python `hay.find(needle)`: first index of `needle` in `hay`, `-1` if absent. -/
def pyFind (hay needle : Str) : Int :=
  (pyFindAux needle hay).elim (-1) Int.ofNat

/-- Helper for Python `str.rfind`: index of the last occurrence of `needle`. -/
def pyRfindAux (needle : Str) : Str → Option Nat
  | [] => if needle = [] then some 0 else none
  | c :: rest =>
    match pyRfindAux needle rest with
    | some n => some (n + 1)
    | none => if needle.isPrefixOf (c :: rest) then some 0 else none

/-- Python `hay.rfind(needle)`: last index of `needle` in `hay`, `-1` if absent. -/
def pyRfind (hay needle : Str) : Int :=
  (pyRfindAux needle hay).elim (-1) Int.ofNat

/-- Python slice `s[a:b]` for the non-negative indices produced by the code's
`find`/`rfind` bookkeeping. -/
def pySlice (s : Str) (a b : Int) : Str :=
  (s.take b.toNat).drop a.toNat

/-- Fuel-driven body of Python `str.replace`: scans left to right, replacing
non-overlapping occurrences of `old` by `new`.  Fuel `s.length` always
suffices for a non-empty `old` because every step consumes at least one
character. -/
def replFuel (old new : Str) : Nat → Str → Str
  | 0, s => s
  | fuel + 1, s =>
    match s with
    | [] => []
    | c :: rest =>
      if old.isPrefixOf (c :: rest) then new ++ replFuel old new fuel ((c :: rest).drop old.length)
      else c :: replFuel old new fuel rest

/-- Python `s.replace(old, new)` for the non-empty patterns the code uses
(for `old = ""` the code never calls it; we return `s`). -/
def pyReplaceAll (s old new : Str) : Str :=
  if old = [] then s else replFuel old new s.length s

/-- ASCII whitespace, the whitespace Python's `str.strip` removes on the
text appearing in this pipeline. -/
def isPySpace (c : Char) : Bool :=
  c = ' ' ∨ c = '\t' ∨ c = '\n' ∨ c = '\r' ∨ c = '\x0b' ∨ c = '\x0c'

/-- Python `s.strip()`. -/
def pyStrip (s : Str) : Str :=
  ((s.dropWhile isPySpace).reverse.dropWhile isPySpace).reverse

/-! ## Response extraction (refactor_cli.py lines 137-149 / runner.py 104-115)

The code searches for a ```` ```json ```` marker (falling back to the first
opening brace), then takes everything up to the *last* ```` ``` ```` fence
(falling back to the last closing brace), strips all fence markers from the
slice and whitespace-trims it. -/

/-- The tagged-fence marker the code searches first. -/
def fenceJson : Str := "```json".data

/-- The bare fence marker used for the end of the slice and for stripping. -/
def fence : Str := "```".data

/-- The JSON-block extraction of `refactor_file` (refactor_cli.py lines
137-149), including its `json_start != -1 and json_end != -1` guard;
`none` is the "No JSON block found" outcome. -/
def extractJson (output : Str) : Option Str :=
  let jsonStart : Int :=
    if pyFind output fenceJson = -1 then pyFind output ['\x7b'] else pyFind output fenceJson
  let jsonEnd : Int :=
    if pyRfind output fence = -1 then pyRfind output ['\x7d'] + 1 else pyRfind output fence
  if jsonStart ≠ -1 ∧ jsonEnd ≠ -1 then
    some (pyStrip (pyReplaceAll (pyReplaceAll (pySlice output jsonStart jsonEnd) fenceJson []) fence []))
  else none

/-! ## Logical-name handling and destination paths

Both writers run `clean_name = util_name.replace('utils/', '')` and then join
`utils_dir / clean_name` with no traversal check (refactor_cli.py lines
183-189, runner.py lines 159-165). -/

/-- The code's `clean_name = util_name.replace('utils/', '')`. -/
def clean_name (util_name : Str) : Str :=
  pyReplaceAll util_name ("utils/".data) []

/-- Split a name into `/`-separated segments (auxiliary). -/
def splitSegsAux (cur : Str) : Str → List Str
  | [] => [cur.reverse]
  | c :: rest => if c = '/' then cur.reverse :: splitSegsAux [] rest else splitSegsAux (c :: cur) rest

/-- Split a name into `/`-separated segments. -/
def splitSegs (s : Str) : List Str := splitSegsAux [] s

/-- OS-level resolution of a segment list against an accumulated absolute
path: `..` pops a directory, `.` and empty segments are ignored. -/
def resolveSegs (acc : List Str) : List Str → List Str
  | [] => acc
  | s :: rest =>
    if s = [] ∨ s = ".".data then resolveSegs acc rest
    else if s = "..".data then resolveSegs acc.dropLast rest
    else resolveSegs (acc ++ [s]) rest

/-- The absolute path actually written for a utility module: the code joins
`root/utils / clean_name` (pathlib semantics: a `/`-absolute right operand
replaces the base) and the OS resolves the result at `open` time. -/
def destPath (root : List Str) (util_name : Str) : List Str :=
  let clean := clean_name util_name
  if clean.head? = some '/' then resolveSegs [] (splitSegs clean)
  else resolveSegs (root ++ ["utils".data]) (splitSegs clean)

/-- Segments that survive OS path resolution unchanged (neither empty nor
`.`). -/
def keepSeg (s : Str) : Bool := decide (s ≠ [] ∧ s ≠ ".".data)

/-! ## Audit-log filenames

Both `log_refactor_output` variants (refactor_cli.py line 37 / runner.py line
42, and the timestamped-tree variant in test_directory_structure.py line 31)
name the log file `datetime.now().strftime("%Y-%m-%d_%H%M") + ".json"`. -/

/-- A wall-clock timestamp. -/
structure Timestamp where
  year : Nat
  month : Nat
  day : Nat
  hour : Nat
  minute : Nat
  second : Nat
deriving DecidableEq

/-- Two-digit zero-padded decimal rendering (`strftime` `%m`, `%d`, `%H`, `%M`). -/
def pad2 (n : Nat) : Str := [Nat.digitChar (n / 10), Nat.digitChar (n % 10)]

/-- Four-digit zero-padded decimal rendering (`strftime` `%Y`). -/
def pad4 (n : Nat) : Str :=
  [Nat.digitChar (n / 1000), Nat.digitChar (n / 100 % 10), Nat.digitChar (n / 10 % 10), Nat.digitChar (n % 10)]

/-- The stamp both log writers use: `strftime("%Y-%m-%d_%H%M")`. -/
def fmtMinuteStamp (t : Timestamp) : Str :=
  pad4 t.year ++ '-' :: pad2 t.month ++ '-' :: pad2 t.day ++ '_' :: pad2 t.hour ++ pad2 t.minute

/-- The audit-log filename of the in-place (CLI / runner) variant. -/
def log_filename_cli (t : Timestamp) : Str := fmtMinuteStamp t ++ ".json".data

/-- The audit-log filename of the timestamped-tree variant
(test_directory_structure.py `log_refactor_output`). -/
def log_filename_tree (t : Timestamp) : Str := fmtMinuteStamp t ++ ".json".data

/-- The minute-resolution key a stamp is built from. -/
def minuteKey (t : Timestamp) : Nat × Nat × Nat × Nat × Nat :=
  (t.year, t.month, t.day, t.hour, t.minute)

/-! ## Run traces

A run is modelled by the ordered list of file-system mutations it performs.
The parse outcome (extraction + `json.loads`) is passed in explicitly: `none`
is any extraction/validation failure, `some p` a successfully parsed dict. -/

/-- One file-system mutation. -/
inductive FsEvent where
  /-- A write of the backup file (`<file>.backup` beside the target). -/
  | writeBackup (content : Str)
  /-- An overwrite of the primary target file. -/
  | writePrimary (content : Str)
  /-- The audit-log file write performed by `log_refactor_output`. -/
  | writeLog
  /-- A utility-module write under the `utils` directory. -/
  | writeUtil (cleanedName : Str) (content : Str)
  /-- The idempotent `utils_dir.mkdir(exist_ok=True)`. -/
  | mkdirUtils
deriving DecidableEq

/-- The parsed agent response: which of the three expected keys are present,
and with what contents. -/
structure ParsedResponse where
  refactored_main : Option Str
  backup_file : Option Str
  utility_modules : Option (List (Str × Str))
deriving DecidableEq

/-- The utility-module writes, in dict order, each through `clean_name`. -/
def utilWrites (us : List (Str × Str)) : List FsEvent :=
  us.map (fun kv => FsEvent.writeUtil (clean_name kv.1) kv.2)

/-- The function `refactor_file` of refactor_cli.py, as (success flag, ordered writes).
With `backup` set, the backup is written before the agent is even invoked
(lines 102-107).  On extraction/parse failure (`none`) the run returns
`False` having written nothing further.  In apply mode a response without
`refactored_main` truncates the target (`open(..., "w")`) and then dies on
the `KeyError`, caught by the outer handler (lines 171-172, 200-202);
otherwise the primary is overwritten, the log written, and the utility
modules written last. -/
def refactor_file (backup preview_only : Bool) (original : Str)
    (outcome : Option ParsedResponse) : Bool × List FsEvent :=
  let pre : List FsEvent := if backup then [FsEvent.writeBackup original] else []
  match outcome with
  | none => (false, pre)
  | some p =>
    if preview_only then (true, pre)
    else
      match p.refactored_main with
      | none => (false, pre ++ [FsEvent.writePrimary []])
      | some mainC =>
        (true, pre ++ [FsEvent.writePrimary mainC, FsEvent.writeLog] ++
          (match p.utility_modules with
           | none => []
           | some us => FsEvent.mkdirUtils :: utilWrites us))

/-- The materialization block of `run_refactor_agent` (runner.py lines
137-167 and the identical accepted-confirmation block lines 176-204): the
refactored main is written first, then the agent-supplied backup file, then
the utility modules. -/
def runnerMaterialize (p : ParsedResponse) : List FsEvent :=
  (match p.refactored_main with
   | none => []
   | some m => [FsEvent.writePrimary m]) ++
  (match p.backup_file with
   | none => []
   | some bk => [FsEvent.writeBackup bk]) ++
  (match p.utility_modules with
   | none => []
   | some us => FsEvent.mkdirUtils :: utilWrites us)

/-- The confirmation test `input(...).strip().lower() in ['y', 'yes']`
(runner.py lines 174-175). -/
def pyAccept (input : Str) : Bool :=
  ((pyStrip input).map Char.toLower = "y".data) ∨ ((pyStrip input).map Char.toLower = "yes".data)

/-- The function `run_refactor_agent` of runner.py as its ordered writes.  On parse
failure it returns before any write (lines 117-121).  On success the audit
log is always written (line 135); then: with `PREVIEW_MODE = False` it
materializes immediately, otherwise it prompts once, materializing only on
an explicit affirmative, with `input = none` standing for a
`KeyboardInterrupt` during the prompt (lines 172-210). -/
def run_refactor_agent (previewMode : Bool) (outcome : Option ParsedResponse)
    (input : Option Str) : List FsEvent :=
  match outcome with
  | none => []
  | some p =>
    FsEvent.writeLog ::
      (if previewMode then
        match input with
        | none => []
        | some s => if pyAccept s then runnerMaterialize p else []
      else runnerMaterialize p)

/-- Does the event write the backup file? -/
def isBackupW : FsEvent → Bool
  | FsEvent.writeBackup _ => true
  | _ => false

/-- Does the event overwrite the primary target? -/
def isPrimaryW : FsEvent → Bool
  | FsEvent.writePrimary _ => true
  | _ => false

/-- Both kinds of event occur, and the first backup write strictly precedes
the first primary overwrite. -/
def backupBeforePrimary (l : List FsEvent) : Bool :=
  l.any isBackupW && l.any isPrimaryW && decide (l.findIdx isBackupW < l.findIdx isPrimaryW)

/-! ## extract_top_level_functions (agent/tools.py lines 23-39)

`ast.parse` of the Python standard library is abstracted as an
`Except`-valued parse outcome over top-level statements; each statement
carries its `ast.unparse` rendering. -/

/-- A top-level Python statement as the function distinguishes them:
`ast.FunctionDef` nodes, `ast.AsyncFunctionDef` nodes (not matched by the
`isinstance` test), and everything else. -/
inductive PyStmt where
  | funcDef (name : Str) (unparsed : Str)
  | asyncFuncDef (name : Str) (unparsed : Str)
  | other (unparsed : Str)
deriving DecidableEq

/-- Is the statement a plain `ast.FunctionDef`? -/
def isFuncDefB : PyStmt → Bool
  | PyStmt.funcDef _ _ => true
  | _ => false

/-- The (name, unparsed code) pair of a statement. -/
def funcPair : PyStmt → Str × Str
  | PyStmt.funcDef n c => (n, c)
  | PyStmt.asyncFuncDef n c => (n, c)
  | PyStmt.other c => ([], c)

/-- The function `extract_top_level_functions`: on a `SyntaxError` from `ast.parse` it
returns the single `("__error__", message)` pair; otherwise one pair per
top-level `FunctionDef`, in body order. -/
def extract_top_level_functions (parsed : Except Str (List PyStmt)) : List (Str × Str) :=
  match parsed with
  | Except.error msg => [("__error__".data, "Syntax error: ".data ++ msg)]
  | Except.ok body =>
    body.filterMap (fun st =>
      match st with
      | PyStmt.funcDef n c => some (n, c)
      | _ => none)

/-! ## The structured record and its JSON text form

The canonical output record (spec: RefactorResult; code keys
`refactored_main`, `backup_file`, `utility_modules`).  Serialization models
Python `json.dumps` with its defaults (`ensure_ascii=True`, separators
`", "` / `": "`): printable ASCII except `"` and `\` passes through, the
short escapes `\" \\ \b \f \n \r \t` are used, every other character
becomes `\uXXXX` (a surrogate pair beyond the BMP).  Parsing models
`json.loads` on this record shape. -/

/-- The canonical result record of a successful run. -/
structure RefactorResult where
  refactored_main : Str
  backup_file : Option Str
  utility_modules : List (Str × Str)
deriving DecidableEq

/-- The `\uXXXX` escape of a code unit (lowercase hex, as Python emits). -/
def u4 (n : Nat) : Str :=
  ['\\', 'u', Nat.digitChar (n / 4096 % 16), Nat.digitChar (n / 256 % 16),
   Nat.digitChar (n / 16 % 16), Nat.digitChar (n % 16)]

/-- JSON escape of one character, per Python `json.dumps` defaults. -/
def escChar (c : Char) : Str :=
  if c = '"' then ['\\', '"']
  else if c = '\\' then ['\\', '\\']
  else if c = '\n' then ['\\', 'n']
  else if c = '\t' then ['\\', 't']
  else if c = '\r' then ['\\', 'r']
  else if c = '\x08' then ['\\', 'b']
  else if c = '\x0c' then ['\\', 'f']
  else if 32 ≤ c.toNat ∧ c.toNat ≤ 126 then [c]
  else if c.toNat < 65536 then u4 c.toNat
  else u4 (55296 + (c.toNat - 65536) / 1024) ++ u4 (56320 + (c.toNat - 65536) % 1024)

/-- JSON escape of a string's characters. -/
def escapeStr : Str → Str
  | [] => []
  | c :: rest => escChar c ++ escapeStr rest

/-- A JSON string literal: `"` + escaped characters + `"`. -/
def jsonStr (s : Str) : Str := '"' :: (escapeStr s ++ ['"'])

/-- The `"k": "v", ...` body of the `utility_modules` object. -/
def serializeEntries : List (Str × Str) → Str
  | [] => []
  | [(k, v)] => jsonStr k ++ ':' :: ' ' :: jsonStr v
  | (k, v) :: rest => jsonStr k ++ ':' :: ' ' :: jsonStr v ++ ',' :: ' ' :: serializeEntries rest

/-- The fixed opening text of the serialized record. -/
def litMain : Str := "\x7b\"refactored_main\": ".data

/-- The fixed text preceding the optional `backup_file` value. -/
def litBk : Str := ", \"backup_file\": ".data

/-- The fixed text preceding the `utility_modules` object's entries. -/
def litUtils : Str := ", \"utility_modules\": \x7b".data

/-- The closing braces of the serialized record. -/
def litClose : Str := "\x7d\x7d".data

/-- Python `json.dumps` of the record (the `backup_file` key present only when the
field is). -/
def serializeResult (r : RefactorResult) : Str :=
  litMain ++ jsonStr r.refactored_main
  ++ (match r.backup_file with
      | none => []
      | some b => litBk ++ jsonStr b)
  ++ litUtils ++ serializeEntries r.utility_modules
  ++ litClose

/-- Hex-digit value of a character (`json.loads` accepts both cases). -/
def hexVal (c : Char) : Option Nat :=
  if '0' ≤ c ∧ c ≤ '9' then some (c.toNat - 48)
  else if 'a' ≤ c ∧ c ≤ 'f' then some (c.toNat - 87)
  else if 'A' ≤ c ∧ c ≤ 'F' then some (c.toNat - 55)
  else none

/-- Value of four hex digits. -/
def hex4 (a b c d : Char) : Option Nat :=
  match hexVal a, hexVal b, hexVal c, hexVal d with
  | some x, some y, some z, some w => some (4096 * x + 256 * y + 16 * z + w)
  | _, _, _, _ => none

/-- The short JSON escapes `json.loads` accepts after a backslash
(other than `u`). -/
def shortEsc (e : Char) : Option Char :=
  if e = '"' then some '"'
  else if e = '\\' then some '\\'
  else if e = '/' then some '/'
  else if e = 'b' then some '\x08'
  else if e = 'f' then some '\x0c'
  else if e = 'n' then some '\n'
  else if e = 'r' then some '\r'
  else if e = 't' then some '\t'
  else none

/-- Consume a literal, or fail. -/
def parseLit (lit s : Str) : Option Str :=
  if lit.isPrefixOf s then some (s.drop lit.length) else none

/-- Decode one JSON escape sequence (the text after a backslash), as
`json.loads` does: the short escapes, `\\uXXXX`, and surrogate pairs. -/
def decodeEsc : Str → Option (Char × Str)
  | [] => none
  | e :: rest =>
    if e = 'u' then
      match rest with
      | a :: b :: c :: d :: rest2 =>
        match hex4 a b c d with
        | none => none
        | some n =>
          if n < 55296 ∨ 57344 ≤ n then some (Char.ofNat n, rest2)
          else if n < 56320 then
            match rest2 with
            | q :: u :: a2 :: b2 :: c2 :: d2 :: rest3 =>
              if q = '\\' ∧ u = 'u' then
                match hex4 a2 b2 c2 d2 with
                | none => none
                | some m =>
                  if 56320 ≤ m ∧ m < 57344 then
                    some (Char.ofNat (65536 + (n - 55296) * 1024 + (m - 56320)), rest3)
                  else none
              else none
            | _ => none
          else none
      | _ => none
    else (shortEsc e).map (fun ch => (ch, rest))

/-- Fuel-driven JSON string-body parser: reads decoded characters up to and
including the closing quote.  Every step consumes at least one input
character, so fuel `s.length` always suffices. -/
def psbFuel : Nat → Str → Option (Str × Str)
  | 0, _ => none
  | fuel + 1, s =>
    match s with
    | [] => none
    | c :: rest =>
      if c = '"' then some ([], rest)
      else if c = '\\' then
        match decodeEsc rest with
        | none => none
        | some (ch, r2) =>
          match psbFuel fuel r2 with
          | none => none
          | some (sb, r) => some (ch :: sb, r)
      else
        match psbFuel fuel rest with
        | none => none
        | some (sb, r) => some (c :: sb, r)

/-- Parse a JSON string body up to and including its closing quote,
returning the decoded text and the remaining input. -/
def parseStringBody (s : Str) : Option (Str × Str) := psbFuel s.length s

/-- Parse one `"k": "v"` entry of the `utility_modules` object, returning
the pair and the rest of the input. -/
def parseEntry (s : Str) : Option ((Str × Str) × Str) :=
  match s with
  | '"' :: rest =>
    match parseStringBody rest with
    | none => none
    | some (k, r1) =>
      match parseLit [':', ' '] r1 with
      | none => none
      | some r2 =>
        match r2 with
        | '"' :: r3 =>
          match parseStringBody r3 with
          | none => none
          | some (v, r4) => some ((k, v), r4)
        | _ => none
  | _ => none

/-- Parse the entries of the `utility_modules` object, after its opening
brace, up to and including its closing brace (fuel-driven; one entry per
unit of fuel). -/
def parseEntriesAux : Nat → Str → Option (List (Str × Str) × Str)
  | 0, _ => none
  | fuel + 1, s =>
    match s with
    | '\x7d' :: rest => some ([], rest)
    | _ =>
      match parseEntry s with
      | none => none
      | some (kv, r4) =>
        match r4 with
        | ',' :: ' ' :: r5 =>
          match parseEntriesAux fuel r5 with
          | none => none
          | some (es, r6) => some (kv :: es, r6)
        | '\x7d' :: r5 => some ([kv], r5)
        | _ => none

/-- Python `json.loads` restricted to the canonical record shape: the full parse
and shape-check of the validated payload. -/
def parseResult (s : Str) : Option RefactorResult :=
  match parseLit litMain s with
  | none => none
  | some r1 =>
    match r1 with
    | '"' :: r2 =>
      match parseStringBody r2 with
      | none => none
      | some (mainC, r3) =>
        match parseLit litBk r3 with
        | some r4 =>
          match r4 with
          | '"' :: r5 =>
            match parseStringBody r5 with
            | none => none
            | some (bk, r6) =>
              match parseLit litUtils r6 with
              | none => none
              | some r7 =>
                match parseEntriesAux (r7.length + 1) r7 with
                | none => none
                | some (us, r8) =>
                  if r8 = ['\x7d'] then some ⟨mainC, some bk, us⟩ else none
          | _ => none
        | none =>
          match parseLit litUtils r3 with
          | none => none
          | some r7 =>
            match parseEntriesAux (r7.length + 1) r7 with
            | none => none
            | some (us, r8) =>
              if r8 = ['\x7d'] then some ⟨mainC, none, us⟩ else none
    | _ => none

/-- Does `needle` occur as a substring? (`pyFindAux` success). -/
def hasOccur (hay needle : Str) : Bool := (pyFindAux needle hay).isSome

/-- Wrapper: the extractor and validator composed, as the pipeline composes
them. -/
def extractAndValidate (transcript : Str) : Option RefactorResult :=
  (extractJson transcript).bind parseResult

/-! ## Lemmas about the string primitives -/

theorem isPrefixOf_append_self {α : Type} [BEq α] [LawfulBEq α] (l m : List α) :
    l.isPrefixOf (l ++ m) = true := by
  induction l with
  | nil => simp
  | cons a t ih => simp [ih]

theorem isPrefixOf_trans_str {a b l : Str} (h1 : a.isPrefixOf b = true)
    (h2 : b.isPrefixOf l = true) : a.isPrefixOf l = true := by
  induction a generalizing b l with
  | nil => simp
  | cons x a' ih =>
    cases b with
    | nil => simp at h1
    | cons y b' =>
      cases l with
      | nil => simp at h2
      | cons z l' =>
        rw [List.isPrefixOf_cons₂] at h1 h2 ⊢
        rcases Bool.and_eq_true_iff.mp h1 with ⟨hxy, h1'⟩
        rcases Bool.and_eq_true_iff.mp h2 with ⟨hyz, h2'⟩
        refine Bool.and_eq_true_iff.mpr ⟨?_, ih h1' h2'⟩
        have exy : x = y := by simpa using hxy
        have eyz : y = z := by simpa using hyz
        simp [exy, eyz]

theorem isPrefixOf_false_of_head_ne {c0 a : Char} {tl l : Str} (h : a ≠ c0) :
    (c0 :: tl).isPrefixOf (a :: l) = false := by
  rw [List.isPrefixOf_cons₂]
  simp [Ne.symm h]

theorem isPrefixOf_append_false {L pre x : Str} (h : L.isPrefixOf pre = false)
    (hl : L.length ≤ pre.length) : L.isPrefixOf (pre ++ x) = false := by
  induction L generalizing pre with
  | nil => simp at h
  | cons a L' ih =>
    cases pre with
    | nil => simp at hl
    | cons b pre' =>
      rw [List.isPrefixOf_cons₂] at h
      rw [List.cons_append, List.isPrefixOf_cons₂]
      rcases Bool.and_eq_false_iff.mp h with hab | hrest
      · simp [hab]
      · simp only [List.length_cons, Nat.add_le_add_iff_right] at hl
        simp [ih hrest hl]

theorem pyFindAux_none_of_head {needle : Str} {c0 : Char} {tl s : Str}
    (hn : needle = c0 :: tl) (h : ∀ a ∈ s, a ≠ c0) : pyFindAux needle s = none := by
  induction s with
  | nil => simp [pyFindAux, hn]
  | cons a t ih =>
    rw [pyFindAux, hn, isPrefixOf_false_of_head_ne (h a (List.mem_cons_self a t))]
    simp only [Bool.false_eq_true, if_false]
    rw [← hn, ih (fun x hx => h x (List.mem_cons_of_mem a hx))]
    rfl

theorem pyFindAux_append_shift {needle : Str} {c0 : Char} {tl pre rest : Str}
    (hn : needle = c0 :: tl) (h : ∀ a ∈ pre, a ≠ c0) :
    pyFindAux needle (pre ++ rest) = (pyFindAux needle rest).map (· + pre.length) := by
  induction pre with
  | nil => cases hh : pyFindAux needle rest <;> simp [hh]
  | cons a t ih =>
    rw [List.cons_append, pyFindAux, hn,
      isPrefixOf_false_of_head_ne (h a (List.mem_cons_self a t))]
    simp only [Bool.false_eq_true, if_false]
    rw [← hn, ih (fun x hx => h x (List.mem_cons_of_mem a hx))]
    cases pyFindAux needle rest with
    | none => rfl
    | some n => simp [Option.map_some, List.length_cons]; omega

theorem pyRfindAux_append_some {needle rest : Str} {n : Nat} (l : Str)
    (h : pyRfindAux needle rest = some n) :
    pyRfindAux needle (l ++ rest) = some (n + l.length) := by
  induction l with
  | nil => simpa using h
  | cons a t ih =>
    rw [List.cons_append, pyRfindAux, ih]
    simp only [List.length_cons, Option.some.injEq]
    omega

theorem pyFindAux_nonempty_of_none {needle s : Str} (h : pyFindAux needle s = none) :
    needle ≠ [] := by
  intro he
  cases s with
  | nil => simp [pyFindAux, he] at h
  | cons a t => rw [pyFindAux, he] at h; simp at h

theorem pyRfindAux_none_of_findAux_none {needle s : Str}
    (h : pyFindAux needle s = none) : pyRfindAux needle s = none := by
  induction s with
  | nil =>
    have := pyFindAux_nonempty_of_none h
    simp [pyRfindAux, this]
  | cons a t ih =>
    rw [pyFindAux] at h
    by_cases hp : needle.isPrefixOf (a :: t) = true
    · simp [hp] at h
    · simp only [hp, if_false] at h
      have ht : pyFindAux needle t = none := by
        cases hh : pyFindAux needle t with
        | none => rfl
        | some n => rw [hh] at h; simp at h
      rw [pyRfindAux, ih ht]
      simp [hp]

theorem pyFindAux_fenceJson_none {s : Str} (h : pyFindAux fence s = none) :
    pyFindAux fenceJson s = none := by
  induction s with
  | nil => simp [pyFindAux, fenceJson]
  | cons a t ih =>
    rw [pyFindAux] at h ⊢
    by_cases hp : fence.isPrefixOf (a :: t) = true
    · simp [hp] at h
    · simp only [hp, if_false] at h
      have ht : pyFindAux fence t = none := by
        cases hh : pyFindAux fence t with
        | none => rfl
        | some n => rw [hh] at h; simp at h
      have hpj : fenceJson.isPrefixOf (a :: t) = false := by
        cases hj : fenceJson.isPrefixOf (a :: t) with
        | false => rfl
        | true =>
          have : fence.isPrefixOf (a :: t) = true :=
            isPrefixOf_trans_str (by decide) hj
          exact absurd this hp
      rw [hpj]
      simp only [Bool.false_eq_true, if_false]
      rw [ih ht]
      rfl

theorem replFuel_id {old s : Str} (new : Str) (fuel : Nat)
    (h : pyFindAux old s = none) (hf : s.length ≤ fuel) :
    replFuel old new fuel s = s := by
  induction fuel generalizing s with
  | zero => rfl
  | succ f ih =>
    cases s with
    | nil => rfl
    | cons c rest =>
      rw [pyFindAux] at h
      by_cases hp : old.isPrefixOf (c :: rest) = true
      · simp [hp] at h
      · have ht : pyFindAux old rest = none := by
          cases hh : pyFindAux old rest with
          | none => rfl
          | some n => rw [hh] at h; simp [hp] at h
        rw [replFuel]
        simp only [hp, Bool.false_eq_true, if_false]
        rw [ih ht (by simpa using Nat.le_of_succ_le_succ hf)]

theorem pyReplaceAll_id {s old : Str} (new : Str) (h : pyFindAux old s = none) :
    pyReplaceAll s old new = s := by
  rw [pyReplaceAll]
  by_cases ho : old = []
  · simp [ho]
  · simp only [ho, if_false]
    exact replFuel_id new s.length h (Nat.le_refl _)

theorem pyStrip_id {s t i : Str} {c d : Char} (hh : s = c :: t) (hc : isPySpace c = false)
    (hl : s = i ++ [d]) (hd : isPySpace d = false) : pyStrip s = s := by
  rw [pyStrip]
  have h1 : s.dropWhile isPySpace = s := by
    rw [hh, List.dropWhile_cons, hc]
    simp
  rw [h1]
  have h2 : s.reverse = d :: i.reverse := by
    rw [hl, List.reverse_append]
    rfl
  rw [h2, List.dropWhile_cons, hd]
  simp only [Bool.false_eq_true, if_false]
  rw [← h2, List.reverse_reverse]

/-! ## Lemmas about the JSON model -/

theorem hexVal_digitChar {n : Nat} (h : n < 16) : hexVal (Nat.digitChar n) = some n := by
  interval_cases n <;> decide

theorem digitChar_inj {a b : Nat} (ha : a < 16) (hb : b < 16)
    (h : Nat.digitChar a = Nat.digitChar b) : a = b := by
  interval_cases a <;> interval_cases b <;> revert h <;> decide

theorem hex4_u4 {n : Nat} (h : n < 65536) :
    hex4 (Nat.digitChar (n / 4096 % 16)) (Nat.digitChar (n / 256 % 16))
      (Nat.digitChar (n / 16 % 16)) (Nat.digitChar (n % 16)) = some n := by
  rw [hex4.eq_def, hexVal_digitChar (Nat.mod_lt _ (by omega)),
    hexVal_digitChar (Nat.mod_lt _ (by omega)), hexVal_digitChar (Nat.mod_lt _ (by omega)),
    hexVal_digitChar (Nat.mod_lt _ (by omega))]
  simp only [Option.some.injEq]
  omega

theorem charValidNat (c : Char) :
    c.toNat < 55296 ∨ (57344 ≤ c.toNat ∧ c.toNat < 1114112) := by
  rcases c.valid with h | ⟨h1, h2⟩
  · exact Or.inl h
  · exact Or.inr ⟨h1, h2⟩

theorem parseLit_append (lit x : Str) : parseLit lit (lit ++ x) = some x := by
  rw [parseLit, if_pos (isPrefixOf_append_self lit x), List.drop_left]

theorem parseLit_none {L pre : Str} (x : Str) (h : L.isPrefixOf pre = false)
    (hl : L.length ≤ pre.length) : parseLit L (pre ++ x) = none := by
  rw [parseLit, if_neg]
  simp [isPrefixOf_append_false h hl]

theorem psbFuel_succ_quote (f : Nat) (rest : Str) :
    psbFuel (f + 1) ('"' :: rest) = some ([], rest) := rfl

theorem psbFuel_succ_esc (f : Nat) (rest : Str) :
    psbFuel (f + 1) ('\\' :: rest) =
      match decodeEsc rest with
      | none => none
      | some (ch, r2) =>
        match psbFuel f r2 with
        | none => none
        | some (sb, r) => some (ch :: sb, r) := rfl

theorem psbFuel_succ_ord {c : Char} (h1 : ¬ c = '"') (h2 : ¬ c = '\\') (f : Nat) (rest : Str) :
    psbFuel (f + 1) (c :: rest) =
      match psbFuel f rest with
      | none => none
      | some (sb, r) => some (c :: sb, r) := by
  simp only [psbFuel]
  rw [if_neg h1, if_neg h2]

theorem decodeEsc_quote (r : Str) : decodeEsc ('"' :: r) = some ('"', r) := rfl

theorem decodeEsc_backslash (r : Str) : decodeEsc ('\\' :: r) = some ('\\', r) := rfl

theorem decodeEsc_n (r : Str) : decodeEsc ('n' :: r) = some ('\n', r) := rfl

theorem decodeEsc_t (r : Str) : decodeEsc ('t' :: r) = some ('\t', r) := rfl

theorem decodeEsc_r (r : Str) : decodeEsc ('r' :: r) = some ('\r', r) := rfl

theorem decodeEsc_b (r : Str) : decodeEsc ('b' :: r) = some ('\x08', r) := rfl

theorem decodeEsc_f (r : Str) : decodeEsc ('f' :: r) = some ('\x0c', r) := rfl

theorem escChar_ne_nil (c : Char) : escChar c ≠ [] := by
  rw [escChar]
  split_ifs <;> simp [u4]

theorem psbFuel_escape (s : Str) : ∀ (fuel : Nat) (rest : Str),
    (escapeStr s ++ '"' :: rest).length ≤ fuel →
    psbFuel fuel (escapeStr s ++ '"' :: rest) = some (s, rest) := by
  induction s with
  | nil =>
    intro fuel rest hf
    rw [escapeStr, List.nil_append] at hf ⊢
    cases fuel with
    | zero => simp at hf
    | succ f => exact psbFuel_succ_quote f rest
  | cons c s' ih =>
    intro fuel rest hf
    rw [escapeStr, List.append_assoc] at hf ⊢
    cases fuel with
    | zero =>
      simp only [List.length_append, List.length_cons, Nat.le_zero] at hf
      omega
    | succ f =>
      have hce := escChar_ne_nil c
      have hlen : (escapeStr s' ++ '"' :: rest).length ≤ f := by
        simp only [List.length_append, List.length_cons] at hf ⊢
        have : 1 ≤ (escChar c).length := List.length_pos.mpr hce
        omega
      have hrec := ih f rest hlen
      by_cases h1 : c = '"'
      · subst h1
        rw [escChar, if_pos rfl, List.cons_append, List.cons_append, List.nil_append,
          psbFuel_succ_esc, decodeEsc_quote]
        simp [hrec]
      by_cases h2 : c = '\\'
      · subst h2
        rw [escChar, if_neg (by decide), if_pos rfl, List.cons_append, List.cons_append,
          List.nil_append, psbFuel_succ_esc, decodeEsc_backslash]
        simp [hrec]
      by_cases h3 : c = '\n'
      · subst h3
        rw [escChar, if_neg (by decide), if_neg (by decide), if_pos rfl, List.cons_append,
          List.cons_append, List.nil_append, psbFuel_succ_esc, decodeEsc_n]
        simp [hrec]
      by_cases h4 : c = '\t'
      · subst h4
        rw [escChar, if_neg (by decide), if_neg (by decide), if_neg (by decide), if_pos rfl,
          List.cons_append, List.cons_append, List.nil_append, psbFuel_succ_esc, decodeEsc_t]
        simp [hrec]
      by_cases h5 : c = '\r'
      · subst h5
        rw [escChar, if_neg (by decide), if_neg (by decide), if_neg (by decide),
          if_neg (by decide), if_pos rfl, List.cons_append, List.cons_append, List.nil_append,
          psbFuel_succ_esc, decodeEsc_r]
        simp [hrec]
      by_cases h6 : c = '\x08'
      · subst h6
        rw [escChar, if_neg (by decide), if_neg (by decide), if_neg (by decide),
          if_neg (by decide), if_neg (by decide), if_pos rfl, List.cons_append, List.cons_append,
          List.nil_append, psbFuel_succ_esc, decodeEsc_b]
        simp [hrec]
      by_cases h7 : c = '\x0c'
      · subst h7
        rw [escChar, if_neg (by decide), if_neg (by decide), if_neg (by decide),
          if_neg (by decide), if_neg (by decide), if_neg (by decide), if_pos rfl,
          List.cons_append, List.cons_append, List.nil_append, psbFuel_succ_esc, decodeEsc_f]
        simp [hrec]
      rw [escChar, if_neg h1, if_neg h2, if_neg h3, if_neg h4, if_neg h5, if_neg h6, if_neg h7]
      have hv := charValidNat c
      by_cases h8 : 32 ≤ c.toNat ∧ c.toNat ≤ 126
      · rw [if_pos h8, List.cons_append, List.nil_append, psbFuel_succ_ord h1 h2, hrec]
      rw [if_neg h8]
      by_cases h9 : c.toNat < 65536
      · have hguard : c.toNat < 55296 ∨ 57344 ≤ c.toNat := by omega
        rw [if_pos h9, u4]
        simp only [List.cons_append, List.nil_append]
        rw [psbFuel_succ_esc]
        have hdec : decodeEsc ('u' :: Nat.digitChar (c.toNat / 4096 % 16) ::
            Nat.digitChar (c.toNat / 256 % 16) :: Nat.digitChar (c.toNat / 16 % 16) ::
            Nat.digitChar (c.toNat % 16) :: (escapeStr s' ++ '"' :: rest)) =
            some (c, escapeStr s' ++ '"' :: rest) := by
          rw [decodeEsc, if_pos rfl]
          rw [hex4_u4 h9]
          simp only [if_pos hguard, Char.ofNat_toNat]
        rw [hdec]
        simp [hrec]
      · have hu : c.toNat < 1114112 := by omega
        have hn1 : ¬(55296 + (c.toNat - 65536) / 1024 < 55296 ∨
            57344 ≤ 55296 + (c.toNat - 65536) / 1024) := by omega
        have hn2 : 55296 + (c.toNat - 65536) / 1024 < 56320 := by omega
        have hn34 : 56320 ≤ 56320 + (c.toNat - 65536) % 1024 ∧
            56320 + (c.toNat - 65536) % 1024 < 57344 := by
          constructor <;> omega
        have heq : (65536 + (55296 + (c.toNat - 65536) / 1024 - 55296) * 1024 +
            (56320 + (c.toNat - 65536) % 1024 - 56320)) = c.toNat := by omega
        rw [if_neg h9, u4, u4]
        simp only [List.cons_append, List.nil_append, List.append_assoc]
        rw [psbFuel_succ_esc]
        have hdec : decodeEsc ('u' ::
            Nat.digitChar ((55296 + (c.toNat - 65536) / 1024) / 4096 % 16) ::
            Nat.digitChar ((55296 + (c.toNat - 65536) / 1024) / 256 % 16) ::
            Nat.digitChar ((55296 + (c.toNat - 65536) / 1024) / 16 % 16) ::
            Nat.digitChar ((55296 + (c.toNat - 65536) / 1024) % 16) :: '\\' :: 'u' ::
            Nat.digitChar ((56320 + (c.toNat - 65536) % 1024) / 4096 % 16) ::
            Nat.digitChar ((56320 + (c.toNat - 65536) % 1024) / 256 % 16) ::
            Nat.digitChar ((56320 + (c.toNat - 65536) % 1024) / 16 % 16) ::
            Nat.digitChar ((56320 + (c.toNat - 65536) % 1024) % 16) ::
            (escapeStr s' ++ '"' :: rest)) = some (c, escapeStr s' ++ '"' :: rest) := by
          rw [decodeEsc, if_pos rfl]
          rw [hex4_u4 (show 55296 + (c.toNat - 65536) / 1024 < 65536 by omega)]
          simp only [if_neg hn1, if_pos hn2]
          simp only [true_and, if_true]
          rw [hex4_u4 (show 56320 + (c.toNat - 65536) % 1024 < 65536 by omega)]
          simp only [if_pos hn34, heq, Char.ofNat_toNat]
        rw [hdec]
        simp [hrec]

theorem parseStringBody_escape (s rest : Str) :
    parseStringBody (escapeStr s ++ '"' :: rest) = some (s, rest) := by
  rw [parseStringBody]
  exact psbFuel_escape s _ rest (Nat.le_refl _)

theorem parseLit_colon_space (x : Str) : parseLit [':', ' '] (':' :: ' ' :: x) = some x :=
  parseLit_append [':', ' '] x

theorem parseLit_bk_utils (x : Str) :
    parseLit litBk (litUtils ++ x) = none :=
  parseLit_none x (by decide) (by decide)

theorem parseEntry_canonical (k v : Str) (tail : Str) :
    parseEntry (jsonStr k ++ ':' :: ' ' :: (jsonStr v ++ tail)) = some ((k, v), tail) := by
  simp only [jsonStr, List.cons_append, List.append_assoc, List.singleton_append,
    List.nil_append]
  simp only [parseEntry, parseStringBody_escape, parseLit_colon_space]

theorem parseEntriesAux_succ_close (f : Nat) (rest : Str) :
    parseEntriesAux (f + 1) ('\x7d' :: rest) = some ([], rest) := rfl

theorem parseEntriesAux_succ_str (f : Nat) (X : Str) :
    parseEntriesAux (f + 1) ('"' :: X) =
      match parseEntry ('"' :: X) with
      | none => none
      | some (kv, r4) =>
        match r4 with
        | ',' :: ' ' :: r5 =>
          match parseEntriesAux f r5 with
          | none => none
          | some (es, r6) => some (kv :: es, r6)
        | '\x7d' :: r5 => some ([kv], r5)
        | _ => none := rfl

theorem parseEntries_rt : ∀ (us : List (Str × Str)) (fuel : Nat) (rest : Str),
    us.length < fuel →
    parseEntriesAux fuel (serializeEntries us ++ '\x7d' :: rest) = some (us, rest) := by
  intro us
  induction us with
  | nil =>
    intro fuel rest h
    cases fuel with
    | zero => omega
    | succ f => exact parseEntriesAux_succ_close f rest
  | cons kv us' ih =>
    intro fuel rest h
    obtain ⟨k, v⟩ := kv
    cases fuel with
    | zero => omega
    | succ f =>
      cases us' with
      | nil =>
        simp only [serializeEntries, jsonStr, List.cons_append, List.append_assoc,
          List.singleton_append, List.nil_append]
        rw [parseEntriesAux_succ_str]
        have he := parseEntry_canonical k v ('\x7d' :: rest)
        simp only [jsonStr, List.cons_append, List.append_assoc, List.singleton_append,
          List.nil_append] at he
        rw [he]
        rfl
      | cons kv2 us'' =>
        simp only [serializeEntries, jsonStr, List.cons_append, List.append_assoc,
          List.singleton_append, List.nil_append]
        rw [parseEntriesAux_succ_str]
        have he := parseEntry_canonical k v
          (',' :: ' ' :: (serializeEntries (kv2 :: us'') ++ '\x7d' :: rest))
        simp only [jsonStr, List.cons_append, List.append_assoc, List.singleton_append,
          List.nil_append] at he
        rw [he]
        have hr := ih f rest (by simpa using Nat.lt_of_succ_lt_succ h)
        simp only [hr]

theorem serializeEntries_len (us : List (Str × Str)) :
    us.length ≤ (serializeEntries us).length + 1 := by
  induction us with
  | nil => simp [serializeEntries]
  | cons kv t ih =>
    cases t with
    | nil => simp [serializeEntries]
    | cons kv2 t' =>
      obtain ⟨k, v⟩ := kv
      simp only [serializeEntries, List.length_cons, List.length_append] at ih ⊢
      omega

theorem parse_serialize (r : RefactorResult) : parseResult (serializeResult r) = some r := by
  obtain ⟨mainC, bk, us⟩ := r
  have hzz : litClose = '\x7d' :: ['\x7d'] := rfl
  have hfuel : us.length < (serializeEntries us ++ '\x7d' :: ['\x7d']).length + 1 := by
    have := serializeEntries_len us
    simp only [List.length_append, List.length_cons, List.length_nil]
    omega
  have hent := parseEntries_rt us ((serializeEntries us ++ '\x7d' :: ['\x7d']).length + 1)
    ['\x7d'] hfuel
  cases bk with
  | none =>
    have hm := parseStringBody_escape mainC
      (litUtils ++ (serializeEntries us ++ '\x7d' :: ['\x7d']))
    rw [serializeResult]
    simp only [hzz, List.nil_append, List.append_assoc]
    rw [parseResult]
    simp only [parseLit_append, jsonStr, List.cons_append, List.append_assoc,
      List.singleton_append, List.nil_append, hm, parseLit_bk_utils, hent]
    simp
  | some b =>
    have hm := parseStringBody_escape mainC
      (litBk ++ ('"' :: (escapeStr b ++ '"' ::
        (litUtils ++ (serializeEntries us ++ '\x7d' :: ['\x7d'])))))
    have hb := parseStringBody_escape b
      (litUtils ++ (serializeEntries us ++ '\x7d' :: ['\x7d']))
    rw [serializeResult]
    simp only [hzz, List.append_assoc]
    rw [parseResult]
    simp only [parseLit_append, jsonStr, List.cons_append, List.append_assoc,
      List.singleton_append, List.nil_append, hm, hb, hent]
    simp

/-! ## Lemmas about extraction -/

theorem extractJson_id {s t i : Str} (h : pyFindAux fence s = none)
    (hh : s = '\x7b' :: t) (hl : s = i ++ ['\x7d']) : extractJson s = some s := by
  have hfj : pyFindAux fenceJson s = none := pyFindAux_fenceJson_none h
  have hrf : pyRfindAux fence s = none := pyRfindAux_none_of_findAux_none h
  have hlb : pyFindAux ['\x7b'] s = some 0 := by
    rw [hh, pyFindAux, if_pos (by simp [List.isPrefixOf_cons₂])]
  have hrb : pyRfindAux ['\x7d'] s = some i.length := by
    rw [hl]
    have h0 : pyRfindAux ['\x7d'] ['\x7d'] = some 0 := by decide
    have := pyRfindAux_append_some i h0
    simpa using this
  have hslen : s.length = i.length + 1 := by rw [hl]; simp
  rw [extractJson]
  simp only [pyFind, pyRfind, hfj, hrf, hlb, hrb, Option.elim, if_true]
  rw [if_pos (show Int.ofNat 0 ≠ -1 ∧ Int.ofNat i.length + 1 ≠ -1 by
    refine ⟨by decide, ?_⟩
    simp only [Int.ofNat_eq_natCast]
    omega)]
  have hsl : pySlice s (Int.ofNat 0) (Int.ofNat i.length + 1) = s := by
    rw [pySlice]
    have h2 : (Int.ofNat i.length + 1).toNat = s.length := by
      rw [hslen]
      simp only [Int.ofNat_eq_natCast]
      omega
    rw [h2]
    simp [List.take_length]
  rw [hsl, pyReplaceAll_id [] hfj, pyReplaceAll_id [] h]
  rw [pyStrip_id hh (by decide) hl (by decide)]

theorem serializeResult_head (r : RefactorResult) :
    ∃ t : Str, serializeResult r = '\x7b' :: t := by
  obtain ⟨mainC, bk, us⟩ := r
  cases bk <;> exact ⟨_, rfl⟩

theorem serializeResult_last (r : RefactorResult) :
    ∃ i : Str, serializeResult r = i ++ ['\x7d'] := by
  obtain ⟨mainC, bk, us⟩ := r
  refine ⟨litMain ++ jsonStr mainC
    ++ (match bk with | none => [] | some b => litBk ++ jsonStr b)
    ++ litUtils ++ serializeEntries us ++ ['\x7d'], ?_⟩
  cases bk <;> simp [serializeResult, litClose, List.append_assoc]

theorem pyFindAux_self {needle : Str} (X : Str) (hne : needle ≠ []) :
    pyFindAux needle (needle ++ X) = some 0 := by
  cases needle with
  | nil => exact absurd rfl hne
  | cons c tl =>
    rw [List.cons_append, pyFindAux, if_pos]
    have := isPrefixOf_append_self (c :: tl) X
    rw [List.cons_append] at this
    exact this

theorem pyRfindAux_fence_self (post : Str) (hpost : ∀ a ∈ post, a ≠ '`') :
    pyRfindAux fence (fence ++ post) = some 0 := by
  have hfn : pyFindAux fence post = none :=
    pyFindAux_none_of_head (show fence = '`' :: "``".data from rfl) hpost
  have hrn : pyRfindAux fence post = none := pyRfindAux_none_of_findAux_none hfn
  have hnp1 : fence.isPrefixOf ('`' :: post) = false := by
    cases post with
    | nil => decide
    | cons c p' =>
      rw [show (fence : Str) = '`' :: '`' :: ['`'] from rfl, List.isPrefixOf_cons₂_self]
      exact isPrefixOf_false_of_head_ne (hpost c (List.mem_cons_self c p'))
  have hnp2 : fence.isPrefixOf ('`' :: '`' :: post) = false := by
    cases post with
    | nil => decide
    | cons c p' =>
      rw [show (fence : Str) = '`' :: '`' :: ['`'] from rfl, List.isPrefixOf_cons₂_self,
        List.isPrefixOf_cons₂_self]
      exact isPrefixOf_false_of_head_ne (hpost c (List.mem_cons_self c p'))
  have e2 : pyRfindAux fence ('`' :: post) = none := by
    rw [pyRfindAux, hrn, hnp1]
    rfl
  have e3 : pyRfindAux fence ('`' :: '`' :: post) = none := by
    rw [pyRfindAux, e2, hnp2]
    rfl
  rw [show fence ++ post = '`' :: '`' :: '`' :: post from rfl, pyRfindAux, e3]
  rw [if_pos]
  exact isPrefixOf_append_self fence post

theorem extract_tagged_block (pre inner post : Str)
    (hpre : ∀ a ∈ pre, a ≠ '`') (hinner : ∀ a ∈ inner, a ≠ '`')
    (hpost : ∀ a ∈ post, a ≠ '`') :
    extractJson (pre ++ fenceJson ++ inner ++ fence ++ post) = some (pyStrip inner) := by
  have hassoc : pre ++ fenceJson ++ inner ++ fence ++ post
      = pre ++ (fenceJson ++ (inner ++ (fence ++ post))) := by
    simp [List.append_assoc]
  rw [hassoc]
  have hfj : pyFindAux fenceJson (pre ++ (fenceJson ++ (inner ++ (fence ++ post))))
      = some pre.length := by
    rw [pyFindAux_append_shift (show fenceJson = '`' :: "``json".data from rfl) hpre,
      pyFindAux_self _ (by decide)]
    simp
  have hre : pre ++ (fenceJson ++ (inner ++ (fence ++ post)))
      = (pre ++ (fenceJson ++ inner)) ++ (fence ++ post) := by
    simp [List.append_assoc]
  have hrf : pyRfindAux fence (pre ++ (fenceJson ++ (inner ++ (fence ++ post))))
      = some ((pre ++ (fenceJson ++ inner)).length) := by
    rw [hre, pyRfindAux_append_some _ (pyRfindAux_fence_self post hpost)]
    simp
  have hA : ¬ (Int.ofNat pre.length = -1) := by
    simp only [Int.ofNat_eq_natCast]
    omega
  have hB : ¬ (Int.ofNat (pre ++ (fenceJson ++ inner)).length = -1) := by
    simp only [Int.ofNat_eq_natCast]
    omega
  rw [extractJson]
  simp only [pyFind, pyRfind, hfj, hrf, Option.elim, hA, hB, if_false, not_false_iff,
    ne_eq, and_self, if_true]
  have hslice : pySlice (pre ++ (fenceJson ++ (inner ++ (fence ++ post))))
      (Int.ofNat pre.length) (Int.ofNat (pre ++ (fenceJson ++ inner)).length)
      = fenceJson ++ inner := by
    rw [pySlice, hre]
    rw [show (Int.ofNat (pre ++ (fenceJson ++ inner)).length).toNat
        = (pre ++ (fenceJson ++ inner)).length from rfl]
    rw [List.take_left]
    rw [show (Int.ofNat pre.length).toNat = pre.length from rfl]
    rw [List.drop_left]
  rw [hslice]
  have hinf : pyFindAux fenceJson inner = none :=
    pyFindAux_none_of_head (show fenceJson = '`' :: "``json".data from rfl) hinner
  have hinf3 : pyFindAux fence inner = none :=
    pyFindAux_none_of_head (show fence = '`' :: "``".data from rfl) hinner
  have hrepl1 : pyReplaceAll (fenceJson ++ inner) fenceJson [] = inner := by
    rw [pyReplaceAll, if_neg (by decide)]
    have hfl : (fenceJson ++ inner).length = (inner.length + 6) + 1 := by
      simp only [List.length_append]
      rw [show (fenceJson : Str).length = 7 from rfl]
      omega
    rw [hfl]
    rw [show fenceJson ++ inner = '`' :: ("``json".data ++ inner) from rfl]
    rw [replFuel]
    rw [if_pos]
    · rw [show (('`' :: ("``json".data ++ inner)).drop fenceJson.length) = inner from by
        rw [show (fenceJson : Str).length = 7 from rfl]
        rfl]
      rw [List.nil_append]
      exact replFuel_id [] _ hinf (by omega)
    · have := isPrefixOf_append_self fenceJson inner
      rw [show fenceJson ++ inner = '`' :: ("``json".data ++ inner) from rfl] at this
      exact this
  rw [hrepl1, pyReplaceAll_id [] hinf3]

/-! ## Lemmas about paths, log stamps and function extraction -/

theorem resolveSegs_no_dotdot (l : List Str) (acc : List Str) (h : "..".data ∉ l) :
    resolveSegs acc l = acc ++ l.filter keepSeg := by
  induction l generalizing acc with
  | nil => simp [resolveSegs]
  | cons seg rest ih =>
    have hs : seg ≠ "..".data := fun he => h (he ▸ List.mem_cons_self seg rest)
    have hrest : "..".data ∉ rest := fun he => h (List.mem_cons_of_mem seg he)
    by_cases h1 : seg = [] ∨ seg = ".".data
    · rw [resolveSegs, if_pos h1, ih _ hrest]
      have hk : keepSeg seg = false := by
        rcases h1 with h1 | h1 <;> simp [keepSeg, h1]
      simp [List.filter_cons, hk]
    · rw [resolveSegs, if_neg h1, if_neg hs, ih _ hrest]
      have hk : keepSeg seg = true := by
        push_neg at h1
        simp [keepSeg, h1.1, h1.2]
      simp [List.filter_cons, hk, List.append_assoc]

theorem fmtMinuteStamp_inj {t1 t2 : Timestamp}
    (hy1 : t1.year < 10000) (hmo1 : t1.month < 100) (hd1 : t1.day < 100)
    (hh1 : t1.hour < 100) (hmi1 : t1.minute < 100)
    (hy2 : t2.year < 10000) (hmo2 : t2.month < 100) (hd2 : t2.day < 100)
    (hh2 : t2.hour < 100) (hmi2 : t2.minute < 100)
    (h : fmtMinuteStamp t1 = fmtMinuteStamp t2) : minuteKey t1 = minuteKey t2 := by
  simp only [fmtMinuteStamp, pad4, pad2, List.cons_append, List.nil_append,
    List.cons.injEq, and_true, true_and] at h
  obtain ⟨e1, e2, e3, e4, e5, e6, e7, e8, e9, e10, e11, e12⟩ := h
  have q1 := digitChar_inj (by omega) (by omega) e1
  have q2 := digitChar_inj (by omega) (by omega) e2
  have q3 := digitChar_inj (by omega) (by omega) e3
  have q4 := digitChar_inj (by omega) (by omega) e4
  have q5 := digitChar_inj (by omega) (by omega) e5
  have q6 := digitChar_inj (by omega) (by omega) e6
  have q7 := digitChar_inj (by omega) (by omega) e7
  have q8 := digitChar_inj (by omega) (by omega) e8
  have q9 := digitChar_inj (by omega) (by omega) e9
  have q10 := digitChar_inj (by omega) (by omega) e10
  have q11 := digitChar_inj (by omega) (by omega) e11
  have q12 := digitChar_inj (by omega) (by omega) e12
  simp only [minuteKey, Prod.mk.injEq]
  refine ⟨by omega, by omega, by omega, by omega, by omega⟩

theorem filterMap_funcDef (body : List PyStmt) :
    body.filterMap (fun st => match st with
      | PyStmt.funcDef n c => some (n, c)
      | _ => none)
      = (body.filter isFuncDefB).map funcPair := by
  induction body with
  | nil => rfl
  | cons st rest ih =>
    cases st <;>
      simp [List.filterMap_cons, List.filter_cons, isFuncDefB, funcPair, ih]

/-! ## The claims -/

/-- Claim C1: the spec requires a logical utility-module name containing a
parent-directory traversal segment to be rejected, and every utility
destination to stay inside the chosen root.  The code has no such check:
`clean_name` maps `"utils/../../etc/passwd"` to `"../../etc/passwd"`, the
write for it is emitted unconditionally, and the destination joined under
`<root>/utils` resolves to `<root's parent>/etc/passwd`, outside the root. -/
theorem c1_traversal_escapes_root :
    clean_name ("utils/../../etc/passwd".data) = "../../etc/passwd".data ∧
    utilWrites [(("utils/../../etc/passwd".data), ("x".data))]
      = [FsEvent.writeUtil ("../../etc/passwd".data) ("x".data)] ∧
    destPath [("home".data), ("proj".data)] ("utils/../../etc/passwd".data)
      = [("home".data), ("etc".data), ("passwd".data)] ∧
    List.isPrefixOf [("home".data), ("proj".data)]
      (destPath [("home".data), ("proj".data)] ("utils/../../etc/passwd".data)) = false := by
  decide

/-- Claim C2, counterexample: in the runner's applied in-place run the
primary target is overwritten before the backup file is written, so the
backup's write does not precede the primary's rewrite. -/
theorem c2_runner_backup_after_primary :
    run_refactor_agent false (some ⟨some ("new".data), some ("old".data), some []⟩) none
      = [FsEvent.writeLog, FsEvent.writePrimary ("new".data),
         FsEvent.writeBackup ("old".data), FsEvent.mkdirUtils] ∧
    backupBeforePrimary (run_refactor_agent false
      (some ⟨some ("new".data), some ("old".data), some []⟩) none) = false := by
  decide

/-- Claim C2, amended: in the CLI variant with backup enabled the backup
write precedes the primary overwrite in every applied run, while in the
runner variant the primary is always overwritten before the agent-supplied
backup file is written. -/
theorem c2_backup_order_amended (orig m m' bk : Str) (p q : ParsedResponse) (inp : Option Str)
    (hp : p.refactored_main = some m)
    (hq : q.refactored_main = some m') (hqb : q.backup_file = some bk) :
    backupBeforePrimary (refactor_file true false orig (some p)).2 = true ∧
    backupBeforePrimary (run_refactor_agent false (some q) inp) = false := by
  constructor
  · simp only [refactor_file, hp, if_true]
    simp [backupBeforePrimary, List.findIdx_cons, isBackupW, isPrimaryW]
  · simp only [run_refactor_agent, runnerMaterialize, hq, hqb]
    simp [backupBeforePrimary, List.findIdx_cons, isBackupW, isPrimaryW]

/-- Claim C2, witness for the amended statement at concrete inputs. -/
theorem c2_backup_order_amended_witness :
    backupBeforePrimary (refactor_file true false ("o".data)
      (some ⟨some ("m".data), none, none⟩)).2 = true ∧
    backupBeforePrimary (run_refactor_agent false
      (some ⟨some ("m".data), some ("b".data), none⟩) none) = false :=
  c2_backup_order_amended ("o".data) ("m".data) ("m".data) ("b".data)
    ⟨some ("m".data), none, none⟩ ⟨some ("m".data), some ("b".data), none⟩ none rfl rfl rfl

/-- Claim C3, counterexample: with backup enabled (the default), the CLI
writes the backup file before the agent is even invoked, so a run whose
extraction/validation fails has still created the backup file. -/
theorem c3_backup_written_on_failed_extraction :
    (refactor_file true false ("code".data) none).1 = false ∧
    (refactor_file true false ("code".data) none).2 = [FsEvent.writeBackup ("code".data)] ∧
    (refactor_file true false ("code".data) none).2 ≠ [] := by
  decide

/-- Claim C3, amended: a run whose extraction or validation fails aborts
with no primary overwrite, no utility file and no log file; the only
possible mutation is the CLI's up-front backup (written before extraction,
when backup is enabled), and the runner variant writes nothing at all. -/
theorem c3_failure_mutations_amended (b pv pv2 : Bool) (orig : Str) (inp : Option Str) :
    (refactor_file b pv orig none).1 = false ∧
    ((refactor_file b pv orig none).2.all (fun e => isBackupW e)) = true ∧
    run_refactor_agent pv2 none inp = [] := by
  refine ⟨?_, ?_, rfl⟩ <;> cases b <;> simp [refactor_file, isBackupW]

/-- Claim C4: the spec requires a "missing required field" validation
failure for a payload without the primary-content key, with nothing acted
upon.  The code has no such check: on `{"utility_modules": {"helpers.py":
"x=1"}}` the runner logs and writes the utility module anyway (skipping
only the primary), and the CLI truncates the target file (`open(..., "w")`)
before dying on the `KeyError`, reported as a generic processing error. -/
theorem c4_missing_primary_field_acted_upon :
    run_refactor_agent false (some ⟨none, none, some [(("helpers.py".data), ("x=1".data))]⟩) none
      = [FsEvent.writeLog, FsEvent.mkdirUtils,
         FsEvent.writeUtil ("helpers.py".data) ("x=1".data)] ∧
    refactor_file true false ("orig".data)
      (some ⟨none, none, some [(("helpers.py".data), ("x=1".data))]⟩)
      = (false, [FsEvent.writeBackup ("orig".data), FsEvent.writePrimary []]) := by
  decide

/-- Claim C5, counterexample: for a transcript whose tagged JSON block is
followed by another fenced block, extraction spans to the *last* fence and
returns the block text merged with the intervening prose and the second
block's body — not the tagged block's inner text (neither verbatim nor
whitespace-stripped). -/
theorem c5_second_fence_corrupts_extraction :
    extractJson ("pre\n```json\n\x7b\"a\": 1\x7d\n```\nmid\n```python\nx=2\n```\n".data)
      = some ("\x7b\"a\": 1\x7d\n\nmid\npython\nx=2".data) ∧
    ("\x7b\"a\": 1\x7d\n\nmid\npython\nx=2".data : Str) ≠ "\n\x7b\"a\": 1\x7d\n".data ∧
    ("\x7b\"a\": 1\x7d\n\nmid\npython\nx=2".data : Str)
      ≠ pyStrip ("\n\x7b\"a\": 1\x7d\n".data) := by
  decide

/-- Claim C5, amended: for every transcript in which backticks occur only
as the tagged block's own opening and closing fences (no other fenced
blocks or stray backticks anywhere), extraction returns exactly the tagged
block's inner text, stripped of leading/trailing whitespace. -/
theorem c5_extract_tagged_block_amended (pre inner post : Str)
    (hpre : ∀ a ∈ pre, a ≠ '`') (hinner : ∀ a ∈ inner, a ≠ '`')
    (hpost : ∀ a ∈ post, a ≠ '`') :
    extractJson (pre ++ fenceJson ++ inner ++ fence ++ post) = some (pyStrip inner) :=
  extract_tagged_block pre inner post hpre hinner hpost

/-- Claim C5, witness for the amended statement at a concrete transcript. -/
theorem c5_extract_tagged_block_amended_witness :
    (∀ a ∈ ("Sure, here is the result:\n".data : Str), a ≠ '`') ∧
    (∀ a ∈ ("\n\x7b\"primary\": \"print(1)\"\x7d\n".data : Str), a ≠ '`') ∧
    (∀ a ∈ ("\nLet me know.".data : Str), a ≠ '`') ∧
    extractJson ("Sure, here is the result:\n".data ++ fenceJson
      ++ "\n\x7b\"primary\": \"print(1)\"\x7d\n".data ++ fence ++ "\nLet me know.".data)
      = some (pyStrip ("\n\x7b\"primary\": \"print(1)\"\x7d\n".data)) :=
  ⟨by decide, by decide, by decide,
    c5_extract_tagged_block_amended ("Sure, here is the result:\n".data)
      ("\n\x7b\"primary\": \"print(1)\"\x7d\n".data) ("\nLet me know.".data)
      (by decide) (by decide) (by decide)⟩

/-- Claim C6, counterexample: a well-formed RefactorResult whose primary
content contains a fence marker does not survive the round trip — the
extractor truncates the serialized text at the backticks and validation
then fails, so nothing (let alone an equal record) is reconstructed. -/
theorem c6_roundtrip_fails_on_fence_in_field :
    extractAndValidate (serializeResult ⟨("a```b".data), none, []⟩) = none ∧
    (none : Option RefactorResult) ≠ some ⟨("a```b".data), none, []⟩ := by
  decide

/-- Claim C6, amended: for every well-formed RefactorResult whose
serialized JSON text contains no fence marker, feeding that text back
through the Extractor and Validator reconstructs a record field-for-field
equal to the original. -/
theorem c6_roundtrip_amended (r : RefactorResult)
    (hf : hasOccur (serializeResult r) fence = false) :
    extractAndValidate (serializeResult r) = some r := by
  have hnone : pyFindAux fence (serializeResult r) = none := by
    cases h : pyFindAux fence (serializeResult r) with
    | none => rfl
    | some n => rw [hasOccur, h] at hf; simp at hf
  obtain ⟨t, hh⟩ := serializeResult_head r
  obtain ⟨i, hl⟩ := serializeResult_last r
  rw [extractAndValidate, extractJson_id hnone hh hl]
  exact parse_serialize r

/-- Claim C6, witness for the amended statement at a concrete record. -/
theorem c6_roundtrip_amended_witness :
    hasOccur (serializeResult ⟨("print(1)".data), none, []⟩) fence = false ∧
    extractAndValidate (serializeResult ⟨("print(1)".data), none, []⟩)
      = some ⟨("print(1)".data), none, []⟩ :=
  ⟨by decide, c6_roundtrip_amended ⟨("print(1)".data), none, []⟩ (by decide)⟩

/-- Claim C7, counterexample: the timestamped-tree variant's log filename
uses minute resolution, not second resolution — two runs in the same
minute but different seconds produce the same log path, so the second run
rewrites the first run's file. -/
theorem c7_tree_log_minute_collision :
    log_filename_tree ⟨2025, 7, 5, 18, 38, 41⟩ = log_filename_tree ⟨2025, 7, 5, 18, 38, 59⟩ ∧
    (⟨2025, 7, 5, 18, 38, 41⟩ : Timestamp) ≠ ⟨2025, 7, 5, 18, 38, 59⟩ ∧
    log_filename_tree ⟨2025, 7, 5, 18, 38, 41⟩ = "2025-07-05_1838.json".data := by
  decide

/-- Claim C7, amended: both variants name the run's log file from the
minute-resolution stamp `%Y-%m-%d_%H%M`; log filenames of two runs agree
exactly when their timestamps agree down to the minute, so a log file is
never touched by runs of other minutes, while runs within the same minute
overwrite it (last-wins). -/
theorem c7_log_naming_amended (t1 t2 : Timestamp)
    (hy1 : t1.year < 10000) (hmo1 : t1.month < 100) (hd1 : t1.day < 100)
    (hh1 : t1.hour < 100) (hmi1 : t1.minute < 100)
    (hy2 : t2.year < 10000) (hmo2 : t2.month < 100) (hd2 : t2.day < 100)
    (hh2 : t2.hour < 100) (hmi2 : t2.minute < 100) :
    log_filename_cli t1 = fmtMinuteStamp t1 ++ ".json".data ∧
    log_filename_tree t1 = fmtMinuteStamp t1 ++ ".json".data ∧
    (log_filename_cli t1 = log_filename_cli t2 ↔ minuteKey t1 = minuteKey t2) ∧
    (log_filename_tree t1 = log_filename_tree t2 ↔ minuteKey t1 = minuteKey t2) := by
  have key : fmtMinuteStamp t1 ++ ".json".data = fmtMinuteStamp t2 ++ ".json".data
      ↔ minuteKey t1 = minuteKey t2 := by
    constructor
    · intro h
      exact fmtMinuteStamp_inj hy1 hmo1 hd1 hh1 hmi1 hy2 hmo2 hd2 hh2 hmi2
        (List.append_cancel_right h)
    · intro h
      obtain ⟨t1y, t1mo, t1d, t1h, t1mi, t1s⟩ := t1
      obtain ⟨t2y, t2mo, t2d, t2h, t2mi, t2s⟩ := t2
      simp only [minuteKey, Prod.mk.injEq] at h
      obtain ⟨a, b, c, d, e⟩ := h
      simp only [fmtMinuteStamp, a, b, c, d, e]
  exact ⟨rfl, rfl, key, key⟩

/-- Claim C7, witness for the amended statement at concrete timestamps. -/
theorem c7_log_naming_amended_witness :
    log_filename_tree ⟨2025, 7, 5, 18, 38, 41⟩ = log_filename_tree ⟨2025, 7, 5, 18, 39, 0⟩
      ↔ minuteKey ⟨2025, 7, 5, 18, 38, 41⟩ = minuteKey ⟨2025, 7, 5, 18, 39, 0⟩ :=
  (c7_log_naming_amended ⟨2025, 7, 5, 18, 38, 41⟩ ⟨2025, 7, 5, 18, 39, 0⟩
    (by decide) (by decide) (by decide) (by decide) (by decide)
    (by decide) (by decide) (by decide) (by decide) (by decide)).2.2.2

/-- Claim C8, counterexample: the code removes *every* occurrence of
`utils/` from the logical name, not only a leading segment — the inner
`utils/` of `"utils/my_utils/helper.py"` is removed as well, contradicting
"occurrences elsewhere in the name are left intact". -/
theorem c8_inner_utils_prefix_also_stripped :
    clean_name ("utils/my_utils/helper.py".data) = "my_helper.py".data ∧
    ("my_helper.py".data : Str) ≠ "my_utils/helper.py".data := by
  decide

/-- Claim C8, amended: sanitization removes every occurrence of `utils/`
throughout the name and joins the remainder beneath the root's `utils`
directory; whenever the cleaned name has no parent-traversal segment, is
not absolute, and has a real component, the destination resolves strictly
inside the `utils` directory. -/
theorem c8_clean_name_amended (root : List Str) (name : Str)
    (h1 : "..".data ∉ splitSegs (clean_name name))
    (h2 : (clean_name name).head? ≠ some '/')
    (h3 : (splitSegs (clean_name name)).filter keepSeg ≠ []) :
    destPath root name
      = (root ++ ["utils".data]) ++ (splitSegs (clean_name name)).filter keepSeg ∧
    List.isPrefixOf (root ++ ["utils".data]) (destPath root name) = true ∧
    destPath root name ≠ root ++ ["utils".data] := by
  have hd : destPath root name
      = (root ++ ["utils".data]) ++ (splitSegs (clean_name name)).filter keepSeg := by
    simp only [destPath]
    rw [if_neg h2]
    exact resolveSegs_no_dotdot _ _ h1
  refine ⟨hd, ?_, ?_⟩
  · rw [hd]
    exact isPrefixOf_append_self _ _
  · rw [hd]
    intro hcon
    have hlen := congrArg List.length hcon
    simp only [List.length_append] at hlen
    have : ((splitSegs (clean_name name)).filter keepSeg).length = 0 := by omega
    exact h3 (List.length_eq_zero.mp this)

/-- Claim C8, witness for the amended statement at a concrete name. -/
theorem c8_clean_name_amended_witness :
    ("..".data ∉ splitSegs (clean_name ("utils/helpers.py".data))) ∧
    ((clean_name ("utils/helpers.py".data)).head? ≠ some '/') ∧
    ((splitSegs (clean_name ("utils/helpers.py".data))).filter keepSeg ≠ []) ∧
    destPath [("home".data)] ("utils/helpers.py".data)
      = ([("home".data)] ++ ["utils".data])
        ++ (splitSegs (clean_name ("utils/helpers.py".data))).filter keepSeg :=
  ⟨by decide, by decide, by decide,
    (c8_clean_name_amended [("home".data)] ("utils/helpers.py".data)
      (by decide) (by decide) (by decide)).1⟩

/-- Claim C9, counterexample: a rejected interactive run has still written
one file — the audit log, written unconditionally before the prompt — so
"the run ends with no files written" fails as stated. -/
theorem c9_log_written_on_rejection :
    run_refactor_agent true (some ⟨some ("m".data), some ("b".data), some []⟩)
      (some ("n".data)) = [FsEvent.writeLog] ∧
    ([FsEvent.writeLog] : List FsEvent) ≠ [] := by
  decide

/-- Claim C9, amended: in the interactive configuration, for every
confirmation input whose stripped lowercase form is neither "y" nor "yes",
and likewise on an interrupt during the prompt, the run performs no
materialization — no primary, backup or utility write; the only write of
such a run is the audit-log entry made before the prompt. -/
theorem c9_rejection_no_materialization_amended (p : ParsedResponse) (s : Str)
    (h1 : (pyStrip s).map Char.toLower ≠ "y".data)
    (h2 : (pyStrip s).map Char.toLower ≠ "yes".data) :
    run_refactor_agent true (some p) (some s) = [FsEvent.writeLog] ∧
    run_refactor_agent true (some p) none = [FsEvent.writeLog] := by
  have ha : pyAccept s = false := by
    simp [pyAccept, h1, h2]
  constructor
  · simp [run_refactor_agent, ha]
  · rfl

/-- Claim C9, witness for the amended statement at a concrete input. -/
theorem c9_rejection_no_materialization_amended_witness :
    ((pyStrip ("n".data)).map Char.toLower ≠ "y".data) ∧
    ((pyStrip ("n".data)).map Char.toLower ≠ "yes".data) ∧
    run_refactor_agent true (some ⟨some ("m".data), none, none⟩) (some ("n".data))
      = [FsEvent.writeLog] :=
  ⟨by decide, by decide,
    (c9_rejection_no_materialization_amended ⟨some ("m".data), none, none⟩ ("n".data)
      (by decide) (by decide)).1⟩

/-- Claim C10: `extract_top_level_functions` is total over parse outcomes:
a `SyntaxError` yields exactly the single `("__error__", message)` pair,
and a successful parse yields exactly one `(name, unparsed code)` pair for
each top-level `FunctionDef`, in body order. -/
theorem c10_extract_functions_total :
    (∀ msg : Str, extract_top_level_functions (Except.error msg)
      = [(("__error__".data), ("Syntax error: ".data ++ msg))]) ∧
    (∀ body : List PyStmt, extract_top_level_functions (Except.ok body)
      = (body.filter isFuncDefB).map funcPair) :=
  ⟨fun _ => rfl, fun body => filterMap_funcDef body⟩

end RefactorAgent
